import Mathlib

/-!
Shallow embedding of `Github_for_RH/Codes/Python/networkx_pylab_new.py`,
the matplotlib/pylab rendering adapter for networkx graphs, together with
theorems settling the specification claims about it.

Modelling conventions:
* Node identities are a type `ν` with decidable equality; edge data (the
  third slot of an XGraph edge tuple) is a type `δ`.
* Coordinates are exact rationals `ℚ` standing for Python floats.  The one
  place the source computes a square root (directed-arrow normalisation)
  is modelled with `Rat.sqrt`; no claim depends on its value except at `0`,
  where it agrees with the float `sqrt` exactly.
* A Python `KeyError` raised by a position-dictionary lookup is modelled by
  `Except` with error `DrawError.keyError`.
* The mutable pylab "current axes" object is an explicit `Axes` state
  threaded through every operation; an operation returns its result
  together with the updated state, and on failure the state reflects the
  mutations performed before the exception (Python semantics).
* Purely forwarded presentation parameters that no claim mentions
  (`node_size`, `node_color`, `node_shape`, `cmap`, `vmin`, `vmax`, font
  attributes) are passed verbatim to the external plotting library by the
  source and are omitted from the state model.
-/

namespace NX

variable {ν δ : Type}

/-- A `KeyError` from the position dictionary: the only error the embedded
routines themselves raise (`pos[v]` with `v` missing). -/
inductive DrawError (ν : Type) where
  | keyError (n : ν)
deriving DecidableEq

/-- An element of an edge list: the source comment says "edge e can be a
2-tuple (Graph) or a 3-tuple (Xgraph)"; the code reads only `e[0]`, `e[1]`. -/
inductive Edge (ν δ : Type) where
  | mk2 (u : ν) (v : ν)
  | mk3 (u : ν) (v : ν) (d : δ)

/-- `e[0]` in the source. -/
def Edge.u : Edge ν δ → ν
  | .mk2 u _ => u
  | .mk3 u _ _ => u

/-- `e[1]` in the source. -/
def Edge.v : Edge ν δ → ν
  | .mk2 _ v => v
  | .mk3 _ v _ => v

/-- The externally supplied graph: node enumeration `G.nodes()`, edge
enumeration `G.edges()` and the directedness flag `G.is_directed()`. -/
structure Graph (ν δ : Type) where
  nodes : List ν
  edges : List (Edge ν δ)
  directed : Bool

/-- `G.is_directed()` in the source. -/
def Graph.is_directed (G : Graph ν δ) : Bool := G.directed

/-- The position dictionary `pos`, keyed by vertex with an x-y pair. -/
abbrev PosMap (ν : Type) := List (ν × (ℚ × ℚ))

/-- Dictionary lookup, `pos.get(v)` behaviour split out of `pos[v]`. -/
def lookupPos [DecidableEq ν] : PosMap ν → ν → Option (ℚ × ℚ)
  | [], _ => none
  | (k, p) :: rest, n => if k = n then some p else lookupPos rest n

/-- `pos[v]`: raises `KeyError` when the vertex has no entry. -/
def getPos [DecidableEq ν] (pos : PosMap ν) (n : ν) : Except (DrawError ν) (ℚ × ℚ) :=
  match lookupPos pos n with
  | some p => .ok p
  | none => .error (.keyError n)

/-- An edge-color specification as the dynamically typed `edge_color`
argument: a color string, an array (of colors / RGBA labels), or a bare
scalar. -/
inductive ColorSpec where
  | str (s : String)
  | arr (cs : List String)
  | scalar (x : ℚ)
deriving DecidableEq

/-- `cb.is_string_like(edge_color)`. -/
def is_string_like : ColorSpec → Bool
  | .str _ => true
  | _ => false

/-- `cb.iterable(edge_color)`: Python strings and arrays are iterable,
bare scalars are not. -/
def iterable : ColorSpec → Bool
  | .str _ => true
  | .arr _ => true
  | .scalar _ => false

/-- `len(edge_color)`.  For a scalar `len` would raise, but the source only
evaluates it after `cb.iterable` succeeded (short-circuit `and`); the value
returned here for a scalar is never reached on that path. -/
def pyLen : ColorSpec → Nat
  | .str s => s.length
  | .arr cs => cs.length
  | .scalar _ => 0

/-- `colorConverter.to_rgba(c, alpha)`: an external injective conversion,
modelled opaquely as the pair of its arguments. -/
def to_rgba (c : ColorSpec) (alpha : ℚ) : ColorSpec × ℚ := (c, alpha)

/-- The `width` argument: scalar or array; `lw` is the tuple the source
builds from it. -/
inductive WidthSpec where
  | scalar (w : ℚ)
  | arr (ws : List ℚ)
deriving DecidableEq

/-- `if not cb.iterable(width): lw=(width,) else: lw=width`. -/
def lwOf : WidthSpec → List ℚ
  | .scalar w => [w]
  | .arr ws => ws

/-- The point collection returned by `ax.scatter`; `set_zorder` mutates the
very object held by the axes, so the final `zorder` is recorded at
construction. -/
structure PointCollection where
  pts : List (ℚ × ℚ)
  zorder : ℤ
deriving DecidableEq

/-- The `LineCollection` built in the undirected branch.  `colors = none`
mirrors the source passing `colors=None` (the per-edge-coloring branch);
`set_alpha(alpha)` is folded into construction. -/
structure LineColl where
  segments : List ((ℚ × ℚ) × (ℚ × ℚ))
  colors : Option (List (ColorSpec × ℚ))
  linewidths : List ℚ
  linestyle : String
  alpha : ℚ
  zorder : ℤ
deriving DecidableEq

/-- The arguments the source passes to the external
`FancyArrow(x1,y1,dx-p*vu_x,dy-p*vu_y,head_width=p,...)`; the polygon
vertices it would produce are external geometry, modelled opaquely by the
argument tuple. -/
structure FancyArrowVerts where
  x : ℚ
  y : ℚ
  dx : ℚ
  dy : ℚ
  head_width : ℚ
deriving DecidableEq

/-- The `PolyCollection` built in the directed branch. -/
structure PolyColl where
  arrows : List FancyArrowVerts
  facecolors : Option (List (ColorSpec × ℚ))
  zorder : ℤ
deriving DecidableEq

/-- The edge primitive: batched line segments (undirected) or batched
arrow polygons (directed). -/
inductive EdgeCollection where
  | line (lc : LineColl)
  | poly (pc : PolyColl)
deriving DecidableEq

/-- Stacking order of the edge primitive (`set_zorder`). -/
def EdgeCollection.zorder : EdgeCollection → ℤ
  | .line lc => lc.zorder
  | .poly pc => pc.zorder

/-- A text handle created by `ax.text(x, y, label, ...,
horizontalalignment='center', verticalalignment='center', ...)`; font
attributes are forwarded verbatim to the library and not modelled. -/
structure TextItem where
  x : ℚ
  y : ℚ
  text : String
  horizontalalignment : String
  verticalalignment : String
deriving DecidableEq

/-- A drawable added to the axes by `ax.scatter` / `ax.add_collection`. -/
inductive Collection where
  | pts (c : PointCollection)
  | edges (c : EdgeCollection)
deriving DecidableEq

/-- An axis-aligned bounding box, lower-left and upper-right corner. -/
abbrev BBox := (ℚ × ℚ) × (ℚ × ℚ)

/-- The mutable surface state: the pylab current axes plus its hold flag.
`dataLim = none` is a fresh axes with no data limits yet. -/
structure Axes where
  xticks : List ℚ
  yticks : List ℚ
  dataLim : Option BBox
  collections : List Collection
  texts : List TextItem
  hold : Bool
deriving DecidableEq

/-- Smallest bounding box containing both arguments. -/
def bboxUnion (a b : BBox) : BBox :=
  ((min a.1.1 b.1.1, min a.1.2 b.1.2), (max a.2.1 b.2.1, max a.2.2 b.2.2))

/-- Modelled external call `ax.update_datalim(corners)`: matplotlib expands
the data limits to cover the given corner points (union with the current
limits; the corners themselves on a fresh axes). -/
def update_datalim (dl : Option BBox) (corners : BBox) : Option BBox :=
  some (match dl with
    | none => corners
    | some b => bboxUnion b corners)

/-- `numpy.amin` on a nonempty sequence; the `[]` case is never reached by
the source (the edge list is nonempty there). -/
def amin : List ℚ → ℚ
  | [] => 0
  | x :: xs => xs.foldl min x

/-- `numpy.amax`, same convention as `amin`. -/
def amax : List ℚ → ℚ
  | [] => 0
  | x :: xs => xs.foldl max x

/-- The list comprehension `[proj(pos[v]) for v in nodelist]`: stops with a
`KeyError` at the first vertex missing from the position dictionary. -/
def coordComp [DecidableEq ν] (pos : PosMap ν) (proj : ℚ × ℚ → ℚ) :
    List ν → Except (DrawError ν) (List ℚ)
  | [] => .ok []
  | n :: vs =>
    match getPos pos n with
    | .error err => .error err
    | .ok p =>
      match coordComp pos proj vs with
      | .error err => .error err
      | .ok qs => .ok (proj p :: qs)

/-- The endpoint loop of `draw_networkx_edges`:
`for e in edgelist: u=e[0]; v=e[1]; head.append(pos[u]); tail.append(pos[v])`;
raises `KeyError` at the first missing endpoint (`u` looked up before `v`). -/
def collectEndpoints [DecidableEq ν] (pos : PosMap ν) :
    List (Edge ν δ) → Except (DrawError ν) (List (ℚ × ℚ) × List (ℚ × ℚ))
  | [] => .ok ([], [])
  | e :: es =>
    match getPos pos e.u with
    | .error err => .error err
    | .ok pu =>
      match getPos pos e.v with
      | .error err => .error err
      | .ok pv =>
        match collectEndpoints pos es with
        | .error err => .error err
        | .ok ht => .ok (pu :: ht.1, pv :: ht.2)

/-- The divisor `sqrt(dx*dx+dy*dy)` of the directed-arrow normalisation.
The source computes it with no zero check. -/
def arrowDenom (dx dy : ℚ) : ℚ := Rat.sqrt (dx * dx + dy * dy)

/-- One iteration of the directed branch:
`dx=x2-x1; dy=y2-y1; vu_x=dx/sqrt(dx*dx+dy*dy); vu_y=dy/...; p=0.026;
FancyArrow(x1,y1,dx-p*vu_x,dy-p*vu_y,head_width=p,...)`.
When both endpoints coincide the source divides by zero (float `nan` /
numeric error); rational division by zero yields `0` here, so the zero
divisor itself is what `arrowDenom` exposes. -/
def fancyArrow (src dst : ℚ × ℚ) : FancyArrowVerts :=
  let dx := dst.1 - src.1
  let dy := dst.2 - src.2
  let vu_x := dx / arrowDenom dx dy
  let vu_y := dy / arrowDenom dx dy
  let p : ℚ := 26 / 1000
  ⟨src.1, src.2, dx - p * vu_x, dy - p * vu_y, p⟩

/-- `draw_networkx_nodes(G, pos, nodelist, ...)`: builds the two coordinate
comprehensions (a `KeyError` escapes before anything is drawn), issues
`ax.scatter`, sets the collection's zorder to 2 and returns the handle. -/
def draw_networkx_nodes [DecidableEq ν] (G : Graph ν δ) (pos : PosMap ν)
    (nodelist : Option (List ν)) (ax : Axes) :
    Except (DrawError ν) PointCollection × Axes :=
  let nl := nodelist.getD G.nodes
  match coordComp pos Prod.fst nl with
  | .error err => (.error err, ax)
  | .ok x =>
    match coordComp pos Prod.snd nl with
    | .error err => (.error err, ax)
    | .ok y =>
      let node_collection : PointCollection := ⟨x.zip y, 2⟩
      (.ok node_collection,
        { ax with collections := ax.collections ++ [.pts node_collection] })

/-- `draw_networkx_edges(G, pos, edgelist, width, edge_color, style, alpha, ax)`.
Mirrors the source line by line: default edge list, the empty-list early
return of `None`, endpoint resolution, `lw`, the `edge_colors` branch, the
directed/undirected primitive, the data-limit update with 5% padding
(`ax.autoscale_view()` only recomputes the external view transform and is
not part of the modelled state), `set_zorder(1)` and `add_collection`. -/
def draw_networkx_edges [DecidableEq ν] (G : Graph ν δ) (pos : PosMap ν)
    (edgelist : Option (List (Edge ν δ))) (width : WidthSpec)
    (edge_color : ColorSpec) (style : String) (alpha : ℚ) (ax : Axes) :
    Except (DrawError ν) (Option EdgeCollection) × Axes :=
  let el := edgelist.getD G.edges
  if el.isEmpty then (.ok none, ax)
  else
    match collectEndpoints pos el with
    | .error err => (.error err, ax)
    | .ok ht =>
      let edge_pos := ht.1.zip ht.2
      let lw := lwOf width
      let edge_colors : Option (List (ColorSpec × ℚ)) :=
        if is_string_like edge_color = false ∧ iterable edge_color = true
            ∧ pyLen edge_color = edge_pos.length then none
        else some [to_rgba edge_color alpha]
      let ec : EdgeCollection :=
        if G.is_directed = false then
          .line ⟨edge_pos, edge_colors, lw, style, alpha, 1⟩
        else
          .poly ⟨edge_pos.map (fun st => fancyArrow st.1 st.2), edge_colors, 1⟩
      let xx := (ht.1 ++ ht.2).map Prod.fst
      let yy := (ht.1 ++ ht.2).map Prod.snd
      let minx := amin xx
      let maxx := amax xx
      let miny := amin yy
      let maxy := amax yy
      let w := maxx - minx
      let h := maxy - miny
      let padx := 5 / 100 * w
      let pady := 5 / 100 * h
      let corners : BBox := ((minx - padx, miny - pady), (maxx + padx, maxy + pady))
      (.ok (some ec),
        { ax with dataLim := update_datalim ax.dataLim corners,
                  collections := ax.collections ++ [.edges ec] })

/-- The label loop of `draw_networkx_labels`: `for (n,label) in
labels.items()`, building the `text_items` dictionary in iteration order;
text already placed stays on the axes when a later lookup fails. -/
def drawLabelsLoop [DecidableEq ν] [ToString ν] (pos : PosMap ν) :
    List (ν × ν) → Axes → Except (DrawError ν) (List (ν × TextItem)) × Axes
  | [], ax => (.ok [], ax)
  | (n, label) :: rest, ax =>
    match getPos pos n with
    | .error err => (.error err, ax)
    | .ok xy =>
      let t : TextItem := ⟨xy.1, xy.2, toString label, "center", "center"⟩
      let ax2 := { ax with texts := ax.texts ++ [t] }
      match drawLabelsLoop pos rest ax2 with
      | (.error err, ax3) => (.error err, ax3)
      | (.ok items, ax3) => (.ok ((n, t) :: items), ax3)

/-- `draw_networkx_labels(G, pos, labels, ...)`: default label dictionary
`dict(zip(G.nodes(),G.nodes()))`; for each entry, looks up the coordinate,
coerces a non-string label with `str(label)` (for a string-like value the
coercion is the identity, so either branch renders the value's textual
form, here `toString`), places centered text, and returns the
node-to-handle dictionary. -/
def draw_networkx_labels [DecidableEq ν] [ToString ν] (G : Graph ν δ)
    (pos : PosMap ν) (labels : Option (List (ν × ν))) (ax : Axes) :
    Except (DrawError ν) (List (ν × TextItem)) × Axes :=
  let ls := labels.getD (G.nodes.zip G.nodes)
  drawLabelsLoop pos ls ax

/-- The keyword arguments of `draw`/`draw_networkx` that the embedded
routines consume; the remaining presentation keywords are forwarded
verbatim to the external library. -/
structure Opts (ν δ : Type) where
  nodelist : Option (List ν)
  edgelist : Option (List (Edge ν δ))
  width : WidthSpec
  edge_color : ColorSpec
  style : String
  alpha : ℚ
  labels : Option (List (ν × ν))
  hold : Option Bool

/-- `draw_networkx(G, pos, with_labels, ax, **kwds)`: nodes, then edges,
then (if requested) labels, against the same axes; a failure propagates,
leaving the mutations already made. -/
def draw_networkx [DecidableEq ν] [ToString ν] (G : Graph ν δ) (pos : PosMap ν)
    (with_labels : Bool) (opts : Opts ν δ) (ax : Axes) :
    Except (DrawError ν) Unit × Axes :=
  match draw_networkx_nodes G pos opts.nodelist ax with
  | (.error err, ax1) => (.error err, ax1)
  | (.ok _, ax1) =>
    match draw_networkx_edges G pos opts.edgelist opts.width opts.edge_color
        opts.style opts.alpha ax1 with
    | (.error err, ax2) => (.error err, ax2)
    | (.ok _, ax2) =>
      if with_labels then
        match draw_networkx_labels G pos opts.labels ax2 with
        | (.error err, ax3) => (.error err, ax3)
        | (.ok _, ax3) => (.ok (), ax3)
      else (.ok (), ax2)

/-- `if h is not None: hold(h)` — the caller-supplied hold override. -/
def applyHold (h : Option Bool) (ax : Axes) : Axes :=
  match h with
  | some b => { ax with hold := b }
  | none => ax

/-- `ax.set_xticks([]); ax.set_yticks([])`. -/
def clearTicks (ax : Axes) : Axes := { ax with xticks := [], yticks := [] }

/-- `draw(G, pos, with_labels, **kwds)`.  The `pos=None` default delegates
to the external `networkx.drawing.spring_layout` (out of scope); the
embedding takes `pos` explicitly.  The source records `b = ax.ishold()`,
applies a `hold` keyword if given, clears the ticks, runs `draw_networkx`
inside `try`, and on both the except path (`hold(b); raise`) and the
fall-through path (`hold(b)`) restores the saved hold state, re-raising
any error unchanged (`draw_if_interactive` is an external no-op on the
modelled state). -/
def draw [DecidableEq ν] [ToString ν] (G : Graph ν δ) (pos : PosMap ν)
    (with_labels : Bool) (opts : Opts ν δ) (ax : Axes) :
    Except (DrawError ν) Unit × Axes :=
  let b := ax.hold
  let res := draw_networkx G pos with_labels opts (clearTicks (applyHold opts.hold ax))
  (res.1, { res.2 with hold := b })

/-- Projection of an XGraph 3-tuple edge to the 2-tuple of its endpoints;
the source never reads past `e[1]`. -/
def stripData : Edge ν δ → Edge ν δ
  | .mk2 u v => .mk2 u v
  | .mk3 u v _ => .mk2 u v

/-- Spec-side formulation of the view-bound expansion: the bounding box of
all endpoint coordinates, padded on each axis by 5% of that axis's span. -/
def padCorners (head tail : List (ℚ × ℚ)) : BBox :=
  let xs := (head ++ tail).map Prod.fst
  let ys := (head ++ tail).map Prod.snd
  ((amin xs - 5 / 100 * (amax xs - amin xs), amin ys - 5 / 100 * (amax ys - amin ys)),
   (amax xs + 5 / 100 * (amax xs - amin xs), amax ys + 5 / 100 * (amax ys - amin ys)))

/-- The coordinate a node renders at, with an irrelevant default for
missing nodes (only used under a totality hypothesis). -/
def posD [DecidableEq ν] (pos : PosMap ν) (n : ν) : ℚ × ℚ :=
  (lookupPos pos n).getD (0, 0)

/- Concrete fixtures used by the example claims and the witnesses. -/

/-- The spec's example graph: nodes A, B, C, undirected edges (A,B), (B,C). -/
def exEdges : List (Edge String Unit) := [.mk2 "A" "B", .mk2 "B" "C"]

def exG : Graph String Unit := ⟨["A", "B", "C"], exEdges, false⟩

def exPos : PosMap String := [("A", (0, 0)), ("B", (1, 0)), ("C", (0, 1))]

/-- A position mapping missing node C. -/
def posMissingC : PosMap String := [("A", (0, 0)), ("B", (1, 0))]

/-- A fresh axes object: no ticks, no data limits, nothing drawn. -/
def freshAxes : Axes := ⟨[], [], none, [], [], false⟩

/-- A directed graph with one self-loop, placed at the origin: the two
endpoints of its edge share identical coordinates. -/
def selfG : Graph Nat Unit := ⟨[0], [.mk2 0 0], true⟩

def selfPos : PosMap Nat := [(0, (0, 0))]

/- Helper lemmas shared by the claim theorems. -/

theorem coordComp_error_of_missing [DecidableEq ν] (pos : PosMap ν) (proj : ℚ × ℚ → ℚ) :
    ∀ l : List ν, (∃ v ∈ l, lookupPos pos v = none) →
    ∃ w, coordComp pos proj l = .error (.keyError w) ∧ lookupPos pos w = none := by
  intro l
  induction l with
  | nil => rintro ⟨v, hv, _⟩; cases hv
  | cons a t ih =>
    rintro ⟨v, hv, hnone⟩
    by_cases ha : lookupPos pos a = none
    · exact ⟨a, by simp [coordComp, getPos, ha], ha⟩
    · obtain ⟨p, hp⟩ := Option.ne_none_iff_exists'.mp ha
      have hvt : v ∈ t := by
        rcases List.mem_cons.mp hv with h1 | h1
        · subst h1; rw [hnone] at hp; cases hp
        · exact h1
      obtain ⟨w, hw, hw2⟩ := ih ⟨v, hvt, hnone⟩
      exact ⟨w, by simp [coordComp, getPos, hp, hw], hw2⟩

theorem collectEndpoints_error_of_missing [DecidableEq ν] (pos : PosMap ν) :
    ∀ el : List (Edge ν δ),
    (∃ e ∈ el, lookupPos pos e.u = none ∨ lookupPos pos e.v = none) →
    ∃ w, collectEndpoints pos el = .error (.keyError w) ∧ lookupPos pos w = none := by
  intro el
  induction el with
  | nil => rintro ⟨e, he, _⟩; cases he
  | cons a t ih =>
    rintro ⟨e, he, hnone⟩
    by_cases hu : lookupPos pos a.u = none
    · exact ⟨a.u, by simp [collectEndpoints, getPos, hu], hu⟩
    · obtain ⟨pu, hpu⟩ := Option.ne_none_iff_exists'.mp hu
      by_cases hv : lookupPos pos a.v = none
      · exact ⟨a.v, by simp [collectEndpoints, getPos, hpu, hv], hv⟩
      · obtain ⟨pv, hpv⟩ := Option.ne_none_iff_exists'.mp hv
        have het : e ∈ t := by
          rcases List.mem_cons.mp he with h1 | h1
          · subst h1
            rcases hnone with h2 | h2
            · rw [h2] at hpu; cases hpu
            · rw [h2] at hpv; cases hpv
          · exact h1
        obtain ⟨w, hw, hw2⟩ := ih ⟨e, het, hnone⟩
        exact ⟨w, by simp [collectEndpoints, getPos, hpu, hpv, hw], hw2⟩

theorem collectEndpoints_length [DecidableEq ν] (pos : PosMap ν) :
    ∀ (el : List (Edge ν δ)) ht, collectEndpoints pos el = .ok ht →
      ht.1.length = el.length ∧ ht.2.length = el.length := by
  intro el
  induction el with
  | nil =>
    intro ht h
    unfold collectEndpoints at h
    injection h with h
    subst h
    exact ⟨rfl, rfl⟩
  | cons a t ih =>
    intro ht h
    unfold collectEndpoints at h
    cases hgu : getPos pos a.u with
    | error err => rw [hgu] at h; exact absurd h (by simp)
    | ok pu =>
      rw [hgu] at h
      cases hgv : getPos pos a.v with
      | error err => rw [hgv] at h; exact absurd h (by simp)
      | ok pv =>
        rw [hgv] at h
        cases hrec : collectEndpoints pos t with
        | error err => rw [hrec] at h; exact absurd h (by simp)
        | ok ht2 =>
          rw [hrec] at h
          injection h with h
          subst h
          obtain ⟨h1, h2⟩ := ih ht2 hrec
          simp [h1, h2]

theorem draw_networkx_nodes_zorder [DecidableEq ν] (G : Graph ν δ) (pos : PosMap ν)
    (nl : Option (List ν)) (ax : Axes) (nc : PointCollection)
    (h : (draw_networkx_nodes G pos nl ax).1 = .ok nc) : nc.zorder = 2 := by
  simp only [draw_networkx_nodes] at h
  split at h
  · simp at h
  · split at h
    · simp at h
    · simp at h
      simp [← h]

theorem draw_networkx_edges_zorder [DecidableEq ν] (G : Graph ν δ) (pos : PosMap ν)
    (elo : Option (List (Edge ν δ))) (wd : WidthSpec) (c : ColorSpec) (st : String)
    (a : ℚ) (ax : Axes) (ec : EdgeCollection)
    (h : (draw_networkx_edges G pos elo wd c st a ax).1 = .ok (some ec)) :
    ec.zorder = 1 := by
  simp only [draw_networkx_edges] at h
  split at h
  · simp at h
  · split at h
    · simp at h
    · simp at h
      split at h <;> simp [← h, EdgeCollection.zorder]

/-- Two axes states agreeing on their tick state. -/
def sameTicks (a b : Axes) : Prop := a.xticks = b.xticks ∧ a.yticks = b.yticks

theorem drawLabelsLoop_sameTicks [DecidableEq ν] [ToString ν] (pos : PosMap ν) :
    ∀ (ls : List (ν × ν)) (ax : Axes), sameTicks (drawLabelsLoop pos ls ax).2 ax := by
  intro ls
  induction ls with
  | nil => intro ax; exact ⟨rfl, rfl⟩
  | cons a t ih =>
    intro ax
    obtain ⟨n, label⟩ := a
    simp only [drawLabelsLoop]
    split
    · exact ⟨rfl, rfl⟩
    next p heq =>
      split
      next e f heq2 =>
        have h3 := ih ({ ax with texts := ax.texts ++ [⟨p.1, p.2, toString label, "center", "center"⟩] })
        rw [heq2] at h3
        exact ⟨h3.1, h3.2⟩
      next items f heq2 =>
        have h3 := ih ({ ax with texts := ax.texts ++ [⟨p.1, p.2, toString label, "center", "center"⟩] })
        rw [heq2] at h3
        exact ⟨h3.1, h3.2⟩

theorem draw_networkx_nodes_sameTicks [DecidableEq ν] (G : Graph ν δ) (pos : PosMap ν)
    (nl : Option (List ν)) (ax : Axes) :
    sameTicks (draw_networkx_nodes G pos nl ax).2 ax := by
  simp only [draw_networkx_nodes]
  split
  · exact ⟨rfl, rfl⟩
  · split
    · exact ⟨rfl, rfl⟩
    · exact ⟨rfl, rfl⟩

theorem draw_networkx_edges_sameTicks [DecidableEq ν] (G : Graph ν δ) (pos : PosMap ν)
    (elo : Option (List (Edge ν δ))) (wd : WidthSpec) (c : ColorSpec) (st : String)
    (a : ℚ) (ax : Axes) :
    sameTicks (draw_networkx_edges G pos elo wd c st a ax).2 ax := by
  simp only [draw_networkx_edges]
  split
  · exact ⟨rfl, rfl⟩
  · split
    · exact ⟨rfl, rfl⟩
    · exact ⟨rfl, rfl⟩

theorem draw_networkx_sameTicks [DecidableEq ν] [ToString ν] (G : Graph ν δ) (pos : PosMap ν)
    (wl : Bool) (opts : Opts ν δ) (ax : Axes) :
    sameTicks (draw_networkx G pos wl opts ax).2 ax := by
  simp only [draw_networkx]
  split
  next r ax1 heq =>
    have h1 := draw_networkx_nodes_sameTicks G pos opts.nodelist ax
    rw [heq] at h1
    exact h1
  next r ax1 heq =>
    have h1 := draw_networkx_nodes_sameTicks G pos opts.nodelist ax
    rw [heq] at h1
    split
    next r2 ax2 heq2 =>
      have h2 := draw_networkx_edges_sameTicks G pos opts.edgelist opts.width
        opts.edge_color opts.style opts.alpha ax1
      rw [heq2] at h2
      exact ⟨h2.1.trans h1.1, h2.2.trans h1.2⟩
    next r2 ax2 heq2 =>
      have h2 := draw_networkx_edges_sameTicks G pos opts.edgelist opts.width
        opts.edge_color opts.style opts.alpha ax1
      rw [heq2] at h2
      have h12 : sameTicks ax2 ax := ⟨h2.1.trans h1.1, h2.2.trans h1.2⟩
      split
      · split
        next r3 ax3 heq3 =>
          have h3 := drawLabelsLoop_sameTicks pos (opts.labels.getD (G.nodes.zip G.nodes)) ax2
          have h4 : drawLabelsLoop pos (opts.labels.getD (G.nodes.zip G.nodes)) ax2
              = draw_networkx_labels G pos opts.labels ax2 := rfl
          rw [h4, heq3] at h3
          exact ⟨h3.1.trans h12.1, h3.2.trans h12.2⟩
        next r3 ax3 heq3 =>
          have h3 := drawLabelsLoop_sameTicks pos (opts.labels.getD (G.nodes.zip G.nodes)) ax2
          have h4 : drawLabelsLoop pos (opts.labels.getD (G.nodes.zip G.nodes)) ax2
              = draw_networkx_labels G pos opts.labels ax2 := rfl
          rw [h4, heq3] at h3
          exact ⟨h3.1.trans h12.1, h3.2.trans h12.2⟩
      · exact h12

theorem stripData_u (e : Edge ν δ) : (stripData e).u = e.u := by
  cases e <;> rfl

theorem stripData_v (e : Edge ν δ) : (stripData e).v = e.v := by
  cases e <;> rfl

theorem collectEndpoints_stripData [DecidableEq ν] (pos : PosMap ν) :
    ∀ el : List (Edge ν δ),
      collectEndpoints pos (el.map stripData) = collectEndpoints pos el := by
  intro el
  induction el with
  | nil => rfl
  | cons a t ih =>
    simp only [List.map_cons, collectEndpoints, stripData_u, stripData_v, ih]

theorem isEmpty_map_stripData (el : List (Edge ν δ)) :
    (el.map stripData).isEmpty = el.isEmpty := by
  cases el <;> rfl

theorem drawLabelsLoop_ok [DecidableEq ν] [ToString ν] (pos : PosMap ν) :
    ∀ (ls : List (ν × ν)) (ax : Axes), (∀ q ∈ ls, lookupPos pos q.1 ≠ none) →
    (drawLabelsLoop pos ls ax).1
      = .ok (ls.map fun q =>
          (q.1, ⟨(posD pos q.1).1, (posD pos q.1).2, toString q.2, "center", "center"⟩)) := by
  intro ls
  induction ls with
  | nil => intro ax h; rfl
  | cons q t ih =>
    intro ax h
    obtain ⟨n, label⟩ := q
    have ha := h (n, label) (List.mem_cons_self _ _)
    obtain ⟨p, hp⟩ := Option.ne_none_iff_exists'.mp ha
    have hts := fun q hq => h q (List.mem_cons_of_mem _ hq)
    have hrec := ih ({ ax with texts := ax.texts ++ [⟨p.1, p.2, toString label, "center", "center"⟩] }) hts
    simp only [drawLabelsLoop, getPos, hp]
    cases hq2 : drawLabelsLoop pos t
        ({ ax with texts := ax.texts ++ [⟨p.1, p.2, toString label, "center", "center"⟩] }) with
    | mk r s =>
      rw [hq2] at hrec
      simp only at hrec
      simp [hrec, posD, hp]

theorem map_zip_self {β : Type} (f : ν × ν → β) :
    ∀ l : List ν, (l.zip l).map f = l.map (fun n => f (n, n)) := by
  intro l
  induction l with
  | nil => rfl
  | cons a t ih => simp [List.zip_cons_cons, ih]

/- Claim theorems. -/

/-- Claim C1 (code bug): the directed branch of `draw_networkx_edges` has no
guard for a zero-length direction vector.  On the directed self-loop graph
placed at the origin the call proceeds to build the arrow (no error path
fires) and the normalisation divisor `sqrt(dx*dx+dy*dy)` it divides by is
exactly `0` — the division by zero the spec requires to be explicitly
guarded is performed unguarded. -/
theorem C1_zero_length_vector_unguarded :
    arrowDenom 0 0 = 0 ∧
    (draw_networkx_edges selfG selfPos none (.scalar 1) (.str "k") "solid" 1 freshAxes).1
      = .ok (some (.poly ⟨[fancyArrow (0, 0) (0, 0)], some [(.str "k", 1)], 1⟩)) := by
  constructor
  · simp [arrowDenom]
  · rfl

/-- Claim C2: `draw` restores the prior hold state of the surface on every
exit path, and the result of the delegated `draw_networkx` — including any
lookup error — is passed through unchanged (re-raised) to the caller. -/
theorem C2_draw_restores_hold_and_reraises [DecidableEq ν] [ToString ν] (G : Graph ν δ)
    (pos : PosMap ν) (wl : Bool) (opts : Opts ν δ) (ax : Axes) :
    ((draw G pos wl opts ax).2).hold = ax.hold ∧
    (draw G pos wl opts ax).1
      = (draw_networkx G pos wl opts (clearTicks (applyHold opts.hold ax))).1 :=
  ⟨rfl, rfl⟩

/-- Claim C3: a node of the node subset, or an endpoint of an edge of the
edge subset, that is missing from the position mapping makes
`draw_networkx_nodes` resp. `draw_networkx_edges` fail with a lookup error
(a `KeyError` naming a node absent from the mapping). -/
theorem C3_missing_position_lookup_error [DecidableEq ν] (G : Graph ν δ) (pos : PosMap ν)
    (nlo : Option (List ν)) (elo : Option (List (Edge ν δ))) (wd : WidthSpec) (c : ColorSpec)
    (st : String) (a : ℚ) (ax ax2 : Axes) (vmiss : ν) (emiss : Edge ν δ)
    (hvm : vmiss ∈ nlo.getD G.nodes) (hvn : lookupPos pos vmiss = none)
    (hem : emiss ∈ elo.getD G.edges)
    (hen : lookupPos pos emiss.u = none ∨ lookupPos pos emiss.v = none) :
    (∃ w, (draw_networkx_nodes G pos nlo ax).1 = .error (.keyError w)
        ∧ lookupPos pos w = none) ∧
    (∃ w, (draw_networkx_edges G pos elo wd c st a ax2).1 = .error (.keyError w)
        ∧ lookupPos pos w = none) := by
  constructor
  · obtain ⟨w, hw, hw2⟩ :=
      coordComp_error_of_missing pos Prod.fst (nlo.getD G.nodes) ⟨vmiss, hvm, hvn⟩
    exact ⟨w, by simp [draw_networkx_nodes, hw], hw2⟩
  · have hne : (elo.getD G.edges).isEmpty = false := by
      cases helo : elo.getD G.edges with
      | nil => rw [helo] at hem; cases hem
      | cons x xs => rfl
    obtain ⟨w, hw, hw2⟩ :=
      collectEndpoints_error_of_missing pos (elo.getD G.edges) ⟨emiss, hem, hen⟩
    exact ⟨w, by simp [draw_networkx_edges, hne, hw], hw2⟩

/-- Witness for C3 at a concrete input: node C referenced but absent from
the position mapping, both for the node subset and for an edge endpoint. -/
theorem C3_missing_position_lookup_error_witness :
    (("C" : String) ∈ (some ["C"] : Option (List String)).getD exG.nodes
        ∧ lookupPos posMissingC "C" = none
        ∧ (Edge.mk2 "B" "C" : Edge String Unit) ∈
            (some [Edge.mk2 "B" "C"] : Option (List (Edge String Unit))).getD exG.edges
        ∧ lookupPos posMissingC (Edge.mk2 "B" "C" : Edge String Unit).v = none) ∧
    ((∃ w, (draw_networkx_nodes exG posMissingC (some ["C"]) freshAxes).1
        = .error (.keyError w) ∧ lookupPos posMissingC w = none) ∧
     (∃ w, (draw_networkx_edges exG posMissingC (some [Edge.mk2 "B" "C"]) (.scalar 1)
        (.str "k") "solid" 1 freshAxes).1
        = .error (.keyError w) ∧ lookupPos posMissingC w = none)) :=
  ⟨⟨by simp, rfl, by simp, rfl⟩,
    C3_missing_position_lookup_error exG posMissingC (some ["C"]) (some [Edge.mk2 "B" "C"])
      (.scalar 1) (.str "k") "solid" 1 freshAxes freshAxes "C" (Edge.mk2 "B" "C")
      (by simp) rfl (by simp) (Or.inr rfl)⟩

/-- Claim C4: with an empty edge list — passed explicitly or arising by
default from a graph without edges — `draw_networkx_edges` returns the
absent result `none` and leaves the surface completely untouched. -/
theorem C4_empty_edgelist_no_draw [DecidableEq ν] (G : Graph ν δ) (pos : PosMap ν)
    (elo : Option (List (Edge ν δ))) (wd : WidthSpec) (c : ColorSpec) (st : String)
    (a : ℚ) (ax : Axes)
    (h : elo = some [] ∨ (elo = none ∧ G.edges = [])) :
    draw_networkx_edges G pos elo wd c st a ax = (.ok none, ax) := by
  rcases h with h | ⟨h1, h2⟩
  · subst h
    simp [draw_networkx_edges]
  · subst h1
    simp [draw_networkx_edges, h2]

/-- Witness for C4 at a concrete input: an explicit empty edge list on the
example graph, and the default edge list of an edgeless graph. -/
theorem C4_empty_edgelist_no_draw_witness :
    ((some [] = (some [] : Option (List (Edge String Unit))) ∨
        (some ([] : List (Edge String Unit)) = none ∧ exG.edges = [])) ∧
      draw_networkx_edges exG exPos (some []) (.scalar 1) (.str "k") "solid" 1 freshAxes
        = (.ok none, freshAxes)) ∧
    draw_networkx_edges (Graph.mk ["A"] [] false : Graph String Unit) exPos none
        (.scalar 1) (.str "k") "solid" 1 freshAxes
      = (.ok none, freshAxes) :=
  ⟨⟨Or.inl rfl,
    C4_empty_edgelist_no_draw exG exPos (some []) (.scalar 1) (.str "k") "solid" 1 freshAxes
      (Or.inl rfl)⟩,
   C4_empty_edgelist_no_draw (Graph.mk ["A"] [] false) exPos none (.scalar 1) (.str "k")
      "solid" 1 freshAxes (Or.inr ⟨rfl, rfl⟩)⟩

/-- Claim C5: for a non-empty edge subset the data bounds after the call are
the previous bounds expanded by the endpoint bounding box padded by 5% of
the coordinate span on each axis; on the example graph (nodes A, B, C at
(0,0), (1,0), (0,1), undirected edges (A,B), (B,C)) the fresh-axes bounds
come out as [-0.05, 1.05] x [-0.05, 1.05] and the primitive is one line
collection holding exactly the two segments. -/
theorem C5_view_bounds_5pct_padding [DecidableEq ν] (G : Graph ν δ) (pos : PosMap ν)
    (el : List (Edge ν δ)) (wd : WidthSpec) (c : ColorSpec) (st : String) (a : ℚ) (ax : Axes)
    (ht : List (ℚ × ℚ) × List (ℚ × ℚ))
    (hne : el ≠ []) (hok : collectEndpoints pos el = .ok ht) :
    (((draw_networkx_edges G pos (some el) wd c st a ax).2).dataLim
        = update_datalim ax.dataLim (padCorners ht.1 ht.2)) ∧
    ((draw_networkx_edges exG exPos none (.scalar 1) (.str "k") "solid" 1 freshAxes).2.dataLim
        = some ((-(1/20), -(1/20)), (21/20, 21/20)) ∧
     (draw_networkx_edges exG exPos none (.scalar 1) (.str "k") "solid" 1 freshAxes).1
        = .ok (some (.line ⟨[((0, 0), (1, 0)), ((1, 0), (0, 1))],
            some [(.str "k", 1)], [1], "solid", 1, 1⟩))) := by
  refine ⟨?_, ?_, rfl⟩
  · have hemp : el.isEmpty = false := by
      cases el with
      | nil => exact absurd rfl hne
      | cons x xs => rfl
    simp only [draw_networkx_edges, Option.getD_some, hemp, Bool.false_eq_true, if_false, hok]
    simp [padCorners]
  · norm_num +decide [draw_networkx_edges, collectEndpoints, getPos, lookupPos, exG, exPos,
      exEdges, freshAxes, amin, amax, update_datalim, Edge.u, Edge.v, Graph.is_directed,
      is_string_like, iterable, pyLen, lwOf, to_rgba]

/-- Witness for C5 at a concrete input: the example graph, whose endpoint
lists are computed by `collectEndpoints` itself. -/
theorem C5_view_bounds_5pct_padding_witness :
    (exEdges ≠ [] ∧ collectEndpoints exPos exEdges
        = .ok ([(0, 0), (1, 0)], [(1, 0), (0, 1)])) ∧
    ((((draw_networkx_edges exG exPos (some exEdges) (.scalar 1) (.str "k") "solid" 1
          freshAxes).2).dataLim
        = update_datalim freshAxes.dataLim (padCorners [(0, 0), (1, 0)] [(1, 0), (0, 1)])) ∧
     ((draw_networkx_edges exG exPos none (.scalar 1) (.str "k") "solid" 1 freshAxes).2.dataLim
        = some ((-(1/20), -(1/20)), (21/20, 21/20)) ∧
      (draw_networkx_edges exG exPos none (.scalar 1) (.str "k") "solid" 1 freshAxes).1
        = .ok (some (.line ⟨[((0, 0), (1, 0)), ((1, 0), (0, 1))],
            some [(.str "k", 1)], [1], "solid", 1, 1⟩)))) :=
  ⟨⟨by simp [exEdges], rfl⟩,
    C5_view_bounds_5pct_padding exG exPos exEdges (.scalar 1) (.str "k") "solid" 1 freshAxes
      ([(0, 0), (1, 0)], [(1, 0), (0, 1)]) (by simp [exEdges]) rfl⟩

/-- Claim C6: with the label mapping omitted and every node positioned,
`draw_networkx_labels` returns one text handle per graph node, keyed by the
node, with the textual form of the node as text and centered at the
coordinate of that node. -/
theorem C6_default_labels_identity [DecidableEq ν] [ToString ν] (G : Graph ν δ)
    (pos : PosMap ν) (ax : Axes)
    (h : ∀ n ∈ G.nodes, lookupPos pos n ≠ none) :
    (draw_networkx_labels G pos none ax).1
      = .ok (G.nodes.map fun n =>
          (n, ⟨(posD pos n).1, (posD pos n).2, toString n, "center", "center"⟩)) := by
  have hz : ∀ q ∈ G.nodes.zip G.nodes, lookupPos pos q.1 ≠ none := by
    intro q hq
    obtain ⟨n1, n2⟩ := q
    exact h n1 (List.of_mem_zip hq).1
  have hz2 := drawLabelsLoop_ok pos (G.nodes.zip G.nodes) ax hz
  rw [show draw_networkx_labels G pos none ax
      = drawLabelsLoop pos (G.nodes.zip G.nodes) ax from rfl, hz2, map_zip_self]

/-- Witness for C6 at a concrete input: the example graph with every node
positioned; the handles come out keyed A, B, C with texts "A", "B", "C" at
the node coordinates. -/
theorem C6_default_labels_identity_witness :
    (∀ n ∈ exG.nodes, lookupPos exPos n ≠ none) ∧
    ((draw_networkx_labels exG exPos none freshAxes).1
      = .ok (exG.nodes.map fun n =>
          (n, ⟨(posD exPos n).1, (posD exPos n).2, toString n, "center", "center"⟩))) :=
  ⟨by intro n hn; fin_cases hn <;> simp [lookupPos, exPos],
   C6_default_labels_identity exG exPos freshAxes
     (by intro n hn; fin_cases hn <;> simp [lookupPos, exPos])⟩

/-- Claim C7: in the undirected branch, the line collection carries the
per-edge-coloring marker (`colors = none`) exactly when the color
specification is a non-string array whose length equals the number of
edges drawn; in every other case it carries the single uniform color
derived from the specification and alpha. -/
theorem C7_per_edge_coloring_condition [DecidableEq ν] (G : Graph ν δ) (pos : PosMap ν)
    (el : List (Edge ν δ)) (wd : WidthSpec) (c : ColorSpec) (st : String) (a : ℚ)
    (ax : Axes) (lc : LineColl)
    (hres : (draw_networkx_edges G pos (some el) wd c st a ax).1 = .ok (some (.line lc))) :
    ((∃ cs, c = ColorSpec.arr cs ∧ cs.length = el.length) → lc.colors = none) ∧
    ((∀ cs, c = ColorSpec.arr cs → cs.length ≠ el.length) →
        lc.colors = some [to_rgba c a]) := by
  simp only [draw_networkx_edges, Option.getD_some] at hres
  split at hres
  · simp at hres
  · split at hres
    · simp at hres
    · next ht heq =>
      have hlen := collectEndpoints_length pos el ht heq
      have hmin : ht.1.length ⊓ ht.2.length = el.length := by
        rw [hlen.1, hlen.2]
        exact min_self _
      simp only at hres
      split at hres
      · simp at hres
        constructor
        · rintro ⟨cs, rfl, hcl⟩
          rw [← hres]
          simp [is_string_like, iterable, pyLen, hmin, hcl]
        · intro hno
          rw [← hres]
          cases c with
          | str s => simp [is_string_like]
          | arr cs =>
            have hne := hno cs rfl
            rw [← hmin] at hne
            simp [is_string_like, iterable, pyLen, hne]
          | scalar x => simp [iterable]
      · simp at hres

/-- Witness for C7 at a concrete input: a two-color array on the two-edge
example graph, which selects the per-edge-coloring branch. -/
theorem C7_per_edge_coloring_condition_witness :
    ((draw_networkx_edges exG exPos (some exEdges) (.scalar 1) (.arr ["r", "b"]) "solid" 1
        freshAxes).1
      = .ok (some (.line ⟨[((0, 0), (1, 0)), ((1, 0), (0, 1))], none, [1], "solid", 1, 1⟩))) ∧
    (((∃ cs, ColorSpec.arr ["r", "b"] = ColorSpec.arr cs ∧ cs.length = exEdges.length) →
        (⟨[((0, 0), (1, 0)), ((1, 0), (0, 1))], none, [1], "solid", 1, 1⟩ : LineColl).colors
          = none) ∧
     ((∀ cs, ColorSpec.arr ["r", "b"] = ColorSpec.arr cs → cs.length ≠ exEdges.length) →
        (⟨[((0, 0), (1, 0)), ((1, 0), (0, 1))], none, [1], "solid", 1, 1⟩ : LineColl).colors
          = some [to_rgba (ColorSpec.arr ["r", "b"]) 1])) :=
  ⟨rfl,
   C7_per_edge_coloring_condition exG exPos exEdges (.scalar 1) (.arr ["r", "b"]) "solid" 1
     freshAxes ⟨[((0, 0), (1, 0)), ((1, 0), (0, 1))], none, [1], "solid", 1, 1⟩ rfl⟩

/-- Claim C8: in the node-then-edge sequence of the combined drawing
routine, an edge primitive successfully returned always has a strictly
lower stacking order than the point collection of the nodes (1 versus 2),
so edges render beneath node markers. -/
theorem C8_edges_below_nodes [DecidableEq ν] (G : Graph ν δ) (pos : PosMap ν)
    (nlo : Option (List ν)) (elo : Option (List (Edge ν δ))) (wd : WidthSpec) (c : ColorSpec)
    (st : String) (a : ℚ) (ax : Axes) (nc : PointCollection) (ec : EdgeCollection)
    (hn : (draw_networkx_nodes G pos nlo ax).1 = .ok nc)
    (he : (draw_networkx_edges G pos elo wd c st a (draw_networkx_nodes G pos nlo ax).2).1
        = .ok (some ec)) :
    ec.zorder < nc.zorder := by
  rw [draw_networkx_nodes_zorder G pos nlo ax nc hn,
    draw_networkx_edges_zorder G pos elo wd c st a _ ec he]
  decide

/-- Witness for C8 at a concrete input: the example graph drawn on a fresh
axes, nodes first, then edges on the resulting surface. -/
theorem C8_edges_below_nodes_witness :
    ((draw_networkx_nodes exG exPos none freshAxes).1
        = .ok (⟨[(0, 0), (1, 0), (0, 1)], 2⟩ : PointCollection) ∧
     (draw_networkx_edges exG exPos none (.scalar 1) (.str "k") "solid" 1
        (draw_networkx_nodes exG exPos none freshAxes).2).1
        = .ok (some (.line ⟨[((0, 0), (1, 0)), ((1, 0), (0, 1))],
            some [(.str "k", 1)], [1], "solid", 1, 1⟩))) ∧
    EdgeCollection.zorder
        (.line ⟨[((0, 0), (1, 0)), ((1, 0), (0, 1))], some [(.str "k", 1)], [1], "solid", 1, 1⟩)
      < (⟨[(0, 0), (1, 0), (0, 1)], 2⟩ : PointCollection).zorder :=
  ⟨⟨rfl, rfl⟩,
   C8_edges_below_nodes exG exPos none none (.scalar 1) (.str "k") "solid" 1 freshAxes
     ⟨[(0, 0), (1, 0), (0, 1)], 2⟩
     (.line ⟨[((0, 0), (1, 0)), ((1, 0), (0, 1))], some [(.str "k", 1)], [1], "solid", 1, 1⟩)
     rfl rfl⟩

/-- Claim C9: on every exit path of `draw` — success or failure — the final
surface has empty axis ticks (the clearing performed at entry is never
undone by any of the delegated routines), while the hold flag is restored
to its prior value. -/
theorem C9_ticks_stay_cleared [DecidableEq ν] [ToString ν] (G : Graph ν δ) (pos : PosMap ν)
    (wl : Bool) (opts : Opts ν δ) (ax : Axes) :
    ((draw G pos wl opts ax).2).xticks = [] ∧ ((draw G pos wl opts ax).2).yticks = [] ∧
    ((draw G pos wl opts ax).2).hold = ax.hold := by
  refine ⟨?_, ?_, rfl⟩
  · exact (draw_networkx_sameTicks G pos wl opts (clearTicks (applyHold opts.hold ax))).1
  · exact (draw_networkx_sameTicks G pos wl opts (clearTicks (applyHold opts.hold ax))).2

/-- Claim C10: `draw_networkx_edges` reads only the first two positions of
each edge tuple: replacing every edge of the subset by the 2-tuple of its
endpoints (dropping any third data slot) leaves the entire result — error
or collection, and the whole surface including the data bounds —
unchanged. -/
theorem C10_edge_data_ignored [DecidableEq ν] (G : Graph ν δ) (pos : PosMap ν)
    (el : List (Edge ν δ)) (wd : WidthSpec) (c : ColorSpec) (st : String) (a : ℚ)
    (ax : Axes) :
    draw_networkx_edges G pos (some (el.map stripData)) wd c st a ax
      = draw_networkx_edges G pos (some el) wd c st a ax := by
  simp only [draw_networkx_edges, Option.getD_some, isEmpty_map_stripData,
    collectEndpoints_stripData]

end NX
